import Mathlib

/-!
Verification development for the strato repository: a Go backend
(src/backend/main.go) serving a user directory with derived day-count
metrics, and a React frontend (src/frontend/src/UserTable.js) applying a
search / date-range / categorical-filter / sort pipeline.

The embedding models calendar dates as day counts since 1970-01-01
(proleptic Gregorian, timezone-less, matching the canonical "Mon D YYYY"
wire format), instants as integer seconds (backend) or milliseconds
(frontend) since that epoch, and both Go time.Parse("Jan 2 2006", s) and
the JS Date parse of those canonical strings by one parsing function.
-/

namespace Strato

/-! ## Calendar arithmetic -/

/-- Proleptic Gregorian leap-year test. -/
def isLeap (y : Nat) : Bool := (y % 4 == 0 && y % 100 != 0) || (y % 400 == 0)

/-- Number of days in month `m` (1..12) of year `y`. -/
def daysInMonth (y : Nat) (m : Nat) : Nat :=
  match m with
  | 1 => 31 | 2 => if isLeap y then 29 else 28 | 3 => 31 | 4 => 30
  | 5 => 31 | 6 => 30 | 7 => 31 | 8 => 31 | 9 => 30 | 10 => 31
  | 11 => 30 | 12 => 31 | _ => 0

/-- Days since 1970-01-01 of the civil date y-m-d (standard era-based
conversion on the proleptic Gregorian calendar). -/
def daysFromCivil (y : Nat) (m d : Nat) : Int :=
  let yAdj : Int := if m ≤ 2 then (y : Int) - 1 else (y : Int)
  let era : Int := Int.fdiv yAdj 400
  let yoe : Nat := (yAdj - era * 400).toNat
  let mp : Nat := (m + 9) % 12
  let doy : Nat := (153 * mp + 2) / 5 + (d - 1)
  let doe : Nat := yoe * 365 + yoe / 4 - yoe / 100 + doy
  era * 146097 + (doe : Int) - 719468

/-! ## Parsing the canonical "Mon D YYYY" date format

Models Go `time.Parse("Jan 2 2006", s)` (month abbreviation matched
case-insensitively, 1-2 digit day validated against the month length,
4-digit year, nothing left over) and, for the strings relevant here, the
JS `new Date(s)` parse of the same wire format (invalid input -> NaN is
modelled as `none`). -/

/-- ASCII lower-casing of one character (the only case folding the data
model needs; all field values and queries in scope are ASCII). -/
def lowerChar (c : Char) : Char :=
  if 'A' ≤ c ∧ c ≤ 'Z' then Char.ofNat (c.toNat + 32) else c

/-- ASCII lower-casing of a character list. -/
def lowerList (cs : List Char) : List Char := cs.map lowerChar

/-- Split a character list on single spaces. -/
def splitOnSpaceAux : List Char → List Char → List (List Char)
  | [], acc => [acc.reverse]
  | c :: cs, acc =>
    if c = ' ' then acc.reverse :: splitOnSpaceAux cs []
    else splitOnSpaceAux cs (c :: acc)

/-- Split a string (as characters) on spaces. -/
def splitOnSpace (cs : List Char) : List (List Char) := splitOnSpaceAux cs []

/-- Is every character an ASCII digit? -/
def isDigits (cs : List Char) : Bool := cs.all fun c => decide ('0' ≤ c ∧ c ≤ '9')

/-- Numeric value of a digit list. -/
def digitsVal (cs : List Char) : Nat :=
  cs.foldl (fun a c => a * 10 + (c.toNat - '0'.toNat)) 0

/-- Month abbreviations in calendar order, as in Go's time package. -/
def monthNames : List String :=
  ["Jan", "Feb", "Mar", "Apr", "May", "Jun",
   "Jul", "Aug", "Sep", "Oct", "Nov", "Dec"]

/-- 1-based index of a (case-insensitively matched) month abbreviation. -/
def monthIndex (cs : List Char) : Option Nat :=
  let l := lowerList cs
  (List.range 12).findSome? fun i =>
    if l = lowerList (monthNames.getD i "").toList then some (i + 1) else none

/-- Parse "Mon D YYYY" into (year, month, day); `none` on any deviation. -/
def parseMonD (s : String) : Option (Nat × Nat × Nat) :=
  match splitOnSpace s.toList with
  | [ms, ds, ys] =>
    match monthIndex ms with
    | none => none
    | some m =>
      if isDigits ds ∧ ds ≠ [] ∧ ds.length ≤ 2 ∧ isDigits ys ∧ ys.length = 4 then
        let d := digitsVal ds
        let y := digitsVal ys
        if 1 ≤ d ∧ d ≤ daysInMonth y m then some (y, m, d) else none
      else none
  | _ => none

/-- Parsed date as days since the epoch. -/
def parseDateDays (s : String) : Option Int :=
  (parseMonD s).map fun t => daysFromCivil t.1 t.2.1 t.2.2

/-- Parsed date as seconds since the epoch (midnight of that day). -/
def parseDateSec (s : String) : Option Int :=
  (parseDateDays s).map (· * 86400)

/-- Parsed date as milliseconds since the epoch (midnight of that day). -/
def parseDateMs (s : String) : Option Int :=
  (parseDateDays s).map (· * 86400000)

/-! ## Backend data model (src/backend/main.go)

The `User` struct; fields carry their JSON names. The two derived integer
fields are stored in the struct (Go zero value 0 after a load) and are
recomputed per read by `getUsers`. -/

/-- Go struct `User` from src/backend/main.go. -/
structure User where
  humanUser : String
  createDate : String
  passwordChangedDate : String
  daysSinceLastPasswordChange : Int
  lastAccessDate : String
  daysSinceLastAccess : Int
  mfaEnabled : String
deriving DecidableEq, Repr

/-- Go struct `InputUser`: the POST request body after JSON decoding. -/
structure InputUser where
  humanUser : String
  createDate : String
  passwordChangedDate : String
  lastAccessDate : String
  mfaEnabled : String
deriving DecidableEq, Repr

/-- One row of `users_table` as scanned from the store: nullable text
dates (`sql.NullString`) and a nullable boolean (`sql.NullBool`). -/
structure DBRow where
  human_user : String
  create_date : Option String
  password_changed_date : Option String
  last_access_date : Option String
  mfa_enabled : Option Bool
deriving DecidableEq, Repr

/-- Result of scanning one row: either a decoded row or a scan error
(`rows.Scan` failing in the `loadUsers` loop). -/
inductive ScanRow where
  | ok (r : DBRow)
  | scanErr
deriving DecidableEq, Repr

/-- Outcome of the store read `db.Query(...)` plus row iteration:
the query itself can fail, or it yields a row list together with a flag
for `rows.Err()` reporting an iteration error at the end. -/
inductive StoreRead where
  | queryErr
  | rows (rs : List ScanRow) (iterErr : Bool)
deriving DecidableEq, Repr

/-- Outcome of `loadUsers`: either the process terminates by
`log.Fatalf` (no HTTP response is ever written, the previous snapshot is
moot because the process is gone), or a new snapshot list is published by
the single assignment `users = loadedUsers`. -/
inductive LoadOutcome where
  | fatalExit
  | published (us : List User)
deriving DecidableEq, Repr

/-- The per-row conversion inside the `loadUsers` loop: NULL dates become
the empty string, the nullable boolean `mfa_enabled` becomes the string
"Yes" / "No" with NULL defaulting to "No"; the derived integer fields are
left at the Go zero value 0. -/
def decodeRow (r : DBRow) : User :=
  { humanUser := r.human_user
    createDate := r.create_date.getD ""
    passwordChangedDate := r.password_changed_date.getD ""
    daysSinceLastPasswordChange := 0
    lastAccessDate := r.last_access_date.getD ""
    daysSinceLastAccess := 0
    mfaEnabled :=
      match r.mfa_enabled with
      | some true => "Yes"
      | some false => "No"
      | none => "No" }

/-- `loadUsers` from src/backend/main.go: a failed query is
`log.Fatalf` (fatal); each row that fails to scan is skipped with
`continue`; an iteration error reported by `rows.Err()` is `log.Fatalf`;
otherwise the accumulated list replaces the snapshot wholesale. -/
def loadUsers (store : StoreRead) : LoadOutcome :=
  match store with
  | .queryErr => .fatalExit
  | .rows rs iterErr =>
    if iterErr then .fatalExit
    else .published (rs.filterMap fun sr =>
      match sr with
      | .ok r => some (decodeRow r)
      | .scanErr => none)

/-! ## Metric calculation per read (getUsers in src/backend/main.go) -/

/-- The per-field day computation in `getUsers`: empty date -> -1;
unparseable date -> -1 (logged, loop continues); otherwise
`int(now.Sub(parsed).Hours() / 24)`, i.e. the day difference truncated
toward zero (`Int.tdiv`). `now` and the parsed date are in seconds. -/
def deriveDays (now : Int) (dateStr : String) : Int :=
  if dateStr = "" then -1
  else
    match parseDateSec dateStr with
    | none => -1
    | some d => Int.tdiv (now - d) 86400

/-- The per-record body of the `getUsers` loop: recompute both derived
fields against `now`, leaving the stored fields untouched. -/
def deriveUser (now : Int) (u : User) : User :=
  { u with
    daysSinceLastPasswordChange := deriveDays now u.passwordChangedDate
    daysSinceLastAccess := deriveDays now u.lastAccessDate }

/-- `getUsers`: copy the snapshot and recompute the derived fields of
every record against the current time. -/
def getUsers (now : Int) (us : List User) : List User :=
  us.map (deriveUser now)

/-- The JSON field names present when one `User` is encoded by Go's
encoding/json: `humanUser` and `mfaEnabled` have no `omitempty` and are
always present; the other five fields carry `omitempty` and are dropped
at their zero value ("" for strings, 0 for ints). Names appear in struct
order. -/
def encodedFieldNames (u : User) : List String :=
  ["humanUser"]
  ++ (if u.createDate = "" then [] else ["createDate"])
  ++ (if u.passwordChangedDate = "" then [] else ["passwordChangedDate"])
  ++ (if u.daysSinceLastPasswordChange = 0 then [] else ["daysSinceLastPasswordChange"])
  ++ (if u.lastAccessDate = "" then [] else ["lastAccessDate"])
  ++ (if u.daysSinceLastAccess = 0 then [] else ["daysSinceLastAccess"])
  ++ ["mfaEnabled"]

/-- The JSON response of the Read operation: one encoded object per
record of the derived view. -/
def getUsersResponseFields (now : Int) (us : List User) : List (List String) :=
  (getUsers now us).map encodedFieldNames

/-! ## Mutation handler (addUser in src/backend/main.go) -/

/-- `strings.ToLower` applied to a field value (ASCII case folding as
character list). -/
def mfaLower (s : String) : List Char := lowerList s.toList

/-- The `switch strings.ToLower(newUser.MFAEnabled)` in `addUser`:
case-insensitive "yes" / "no" mapped to the stored boolean. -/
def parseMFA (s : String) : Option Bool :=
  if mfaLower s = "yes".toList then some true
  else if mfaLower s = "no".toList then some false
  else none

/-- The distinct exits of `addUser`, one per response the Go code can
write (plus `fatalExit` for the `log.Fatalf` inside the post-insert
`loadUsers`, which writes no response at all). -/
inductive AddResult where
  | badRequestEmptyHumanUser
  | badRequestInvalidMFA
  | serverErrorInsert
  | fatalExit
  | created
deriving DecidableEq, Repr

/-- `addUser` from src/backend/main.go, given the decoded request body,
the published snapshot, whether the INSERT succeeds, and the store-read
outcome the post-insert `loadUsers` refresh will see. Returns the
response outcome and the snapshot afterwards. Validation failures return
before any store access. -/
def addUser (input : InputUser) (users : List User) (insertOk : Bool)
    (postStore : StoreRead) : AddResult × List User :=
  if input.humanUser = "" then (.badRequestEmptyHumanUser, users)
  else
    match parseMFA input.mfaEnabled with
    | none => (.badRequestInvalidMFA, users)
    | some _ =>
      if insertOk then
        match loadUsers postStore with
        | .fatalExit => (.fatalExit, users)
        | .published us => (.created, us)
      else (.serverErrorInsert, users)

/-! ## Frontend query engine (src/frontend/src/UserTable.js) -/

/-- Column keys of the table, as in `columnsConfig`. -/
inductive ColKey where
  | humanUser
  | createDate
  | passwordChangedDate
  | daysSinceLastPasswordChange
  | lastAccessDate
  | daysSinceLastAccess
  | mfaEnabled
deriving DecidableEq, Repr

/-- Declared column types in `columnsConfig`. -/
inductive ColType where
  | str
  | date
  | number
deriving DecidableEq, Repr

/-- One entry of the JS `columnsConfig` array (display name omitted:
it never influences behaviour). -/
structure ColumnConfig where
  key : ColKey
  type : ColType
  searchable : Bool
deriving DecidableEq, Repr

/-- The `columnsConfig` array of src/frontend/src/UserTable.js. -/
def columnsConfig : List ColumnConfig :=
  [⟨.humanUser, .str, true⟩,
   ⟨.createDate, .date, false⟩,
   ⟨.passwordChangedDate, .date, false⟩,
   ⟨.daysSinceLastPasswordChange, .number, false⟩,
   ⟨.lastAccessDate, .date, false⟩,
   ⟨.daysSinceLastAccess, .number, false⟩,
   ⟨.mfaEnabled, .str, true⟩]

/-- `String(user[column.key])`: the raw field stringified (JS renders an
integer number in plain decimal, as `toString` on `Int` does). -/
def getFieldString (u : User) (k : ColKey) : String :=
  match k with
  | .humanUser => u.humanUser
  | .createDate => u.createDate
  | .passwordChangedDate => u.passwordChangedDate
  | .daysSinceLastPasswordChange => toString u.daysSinceLastPasswordChange
  | .lastAccessDate => u.lastAccessDate
  | .daysSinceLastAccess => toString u.daysSinceLastAccess
  | .mfaEnabled => u.mfaEnabled

/-- JS `hay.includes(needle)`: substring containment. -/
def strIncludes (hay needle : String) : Bool :=
  decide (List.IsInfix needle.toList hay.toList)

/-- Step 1 of `filteredAndSortedUsers`: the search filter. An empty query
string is falsy, so no filtering happens; otherwise a record is kept when
some searchable column's stringified, lower-cased value contains the
lower-cased query. -/
def searchFilter (q : String) (us : List User) : List User :=
  if q = "" then us
  else us.filter fun u =>
    columnsConfig.any fun c =>
      c.searchable &&
        strIncludes ⟨lowerList (getFieldString u c.key).toList⟩ ⟨lowerList q.toList⟩

/-- The per-record predicate of step 2 (the date-range filter): a missing
(empty, hence falsy) or unparseable value is excluded; otherwise the
parsed instant must lie between the start bound normalized to 00:00:00
and the end bound normalized to 23:59:59.999 of their calendar days
(bounds in days since the epoch, record instant in milliseconds). -/
def dateRangeKeep (col : ColKey) (startD endD : Option Int) (u : User) : Bool :=
  let v := getFieldString u col
  if v = "" then false
  else
    match parseDateMs v with
    | none => false
    | some t =>
      (match startD with
       | some s => decide (s * 86400000 ≤ t)
       | none => true) &&
      (match endD with
       | some e => decide (t ≤ e * 86400000 + 86399999)
       | none => true)

/-- Step 2 of `filteredAndSortedUsers`: skipped entirely when neither
bound is set (`startDate || endDate` falsy), otherwise a filter with
`dateRangeKeep`. -/
def dateRangeFilter (col : ColKey) (startD endD : Option Int)
    (us : List User) : List User :=
  if startD = none ∧ endD = none then us
  else us.filter (dateRangeKeep col startD endD)

/-- Sort direction of `sortConfig`. -/
inductive Direction where
  | ascending
  | descending
deriving DecidableEq, Repr

/-- `columnsConfig.find(col => col.key === sortConfig.key)`. -/
def findColumn (k : ColKey) : Option ColumnConfig :=
  columnsConfig.find? fun c => decide (c.key = k)

/-- `Number(valA)` for the number-typed columns (the two derived integer
fields); other keys never reach the number branch. -/
def numValue (u : User) (k : ColKey) : Int :=
  match k with
  | .daysSinceLastPasswordChange => u.daysSinceLastPasswordChange
  | .daysSinceLastAccess => u.daysSinceLastAccess
  | _ => 0

/-- Model of `String(valA).localeCompare(String(valB))` as a three-way
code-point comparison (locale tailoring is outside the embedding; no
claim depends on it). -/
def strCompare (a b : String) : Int :=
  if a < b then -1 else if a = b then 0 else 1

/-- The comparator body of step 4, before the direction sign: number
columns subtract, date columns parse both sides (both invalid -> 0, the
invalid side treated as greater otherwise, else chronological
difference), string columns use localeCompare. -/
def rawComparison (k : ColKey) (a b : User) : Int :=
  match findColumn k with
  | none => 0
  | some c =>
    match c.type with
    | .number => numValue a k - numValue b k
    | .date =>
      match parseDateMs (getFieldString a k), parseDateMs (getFieldString b k) with
      | none, none => 0
      | none, some _ => 1
      | some _, none => -1
      | some x, some y => x - y
    | .str => strCompare (getFieldString a k) (getFieldString b k)

/-- `return sortConfig.direction === 'ascending' ? comparison :
comparison * -1`. -/
def applyDirection (dir : Direction) (c : Int) : Int :=
  match dir with
  | .ascending => c
  | .descending => -c

/-- The full comparator passed to `sort`. -/
def sortComparator (k : ColKey) (dir : Direction) (a b : User) : Int :=
  applyDirection dir (rawComparison k a b)

/-- Stable insertion of `x` into `l`: `x` goes before the first element
it does not compare strictly greater than, so elements comparing equal
keep their original relative order (JS `Array.prototype.sort` is
stable). -/
def insertSorted (cmp : α → α → Int) (x : α) : List α → List α
  | [] => [x]
  | y :: ys => if cmp x y ≤ 0 then x :: y :: ys else y :: insertSorted cmp x ys

/-- Stable sort by a three-way comparator (insertion sort; for a
consistent comparator this is the unique stable order, the one JS
`sort` produces). -/
def sortByComparator (cmp : α → α → Int) : List α → List α
  | [] => []
  | x :: xs => insertSorted cmp x (sortByComparator cmp xs)

/-- Step 4 of `filteredAndSortedUsers`: the typed, direction-signed,
stable sort. -/
def sortStep (k : ColKey) (dir : Direction) (us : List User) : List User :=
  sortByComparator (sortComparator k dir) us

/-- The `sortConfig` state of the table. -/
structure SortConfig where
  key : ColKey
  direction : Direction
deriving DecidableEq, Repr

/-- `requestSort` from src/frontend/src/UserTable.js: default direction
ascending; re-selecting the active column while ascending gives
descending, while descending gives ascending. -/
def requestSort (k : ColKey) (cfg : SortConfig) : SortConfig :=
  if cfg.key = k ∧ cfg.direction = .ascending then ⟨k, .descending⟩
  else if cfg.key = k ∧ cfg.direction = .descending then ⟨k, .ascending⟩
  else ⟨k, .ascending⟩

/-- The direction flip performed by re-selecting the active column. -/
def toggleDirection (d : Direction) : Direction :=
  match d with
  | .ascending => .descending
  | .descending => .ascending

/-! ## Concrete records used by witnesses and counterexamples -/

/-- A record whose date fields all parse. -/
def uAlice : User := ⟨"Alice", "Jan 1 2023", "Oct 1 2021", 0, "Jan 4 2025", 0, "Yes"⟩

/-- A record whose date fields do not parse (or are empty). -/
def uBad : User := ⟨"Bob", "not-a-date", "never", 0, "", 0, "No"⟩

/-- A store row whose `mfa_enabled` column is NULL and whose
`create_date` column is NULL. -/
def rowNullFields : DBRow := ⟨"Foo Bar1", none, some "Oct 1 2021", some "Jan 4 2025", none⟩

/-- A fully populated store row. -/
def rowFull : DBRow := ⟨"Foo1 Bar1", some "Sep 20 2019", some "Sep 22 2019", some "Feb 8 2025", some false⟩

/-- A syntactically valid POST body. -/
def inputOk : InputUser := ⟨"newbie", "May 18 2025", "May 18 2025", "May 18 2025", "Yes"⟩

/-! ## Theorems -/

/-- C9 counterexample: starting from the default sort state
(createDate, descending), selecting the `createDate` column twice in
succession ends in descending order, not ascending, so the claim's
"for every starting sort state" fails. -/
theorem c9_counterexample :
    requestSort ColKey.createDate
        (requestSort ColKey.createDate ⟨ColKey.createDate, Direction.descending⟩)
      = ⟨ColKey.createDate, Direction.descending⟩ ∧
    Direction.descending ≠ Direction.ascending := by
  constructor
  · decide
  · decide

/-- C9 amended: re-selecting the currently active sort column toggles the
direction between ascending and descending, and selecting a different
column resets the direction to ascending; consequently selecting the same
column twice in succession restores the starting state when that column
was already active (so it ends ascending exactly when it started
ascending), and ends descending when the column was not previously
active. -/
theorem c9_requestSort_toggle_and_reset (cfg : SortConfig) (k : ColKey) :
    (cfg.key = k → requestSort k cfg = ⟨k, toggleDirection cfg.direction⟩) ∧
    (cfg.key ≠ k → requestSort k cfg = ⟨k, Direction.ascending⟩) ∧
    (cfg.key = k → requestSort k (requestSort k cfg) = cfg) ∧
    (cfg.key ≠ k → requestSort k (requestSort k cfg) = ⟨k, Direction.descending⟩) := by
  obtain ⟨ck, cd⟩ := cfg
  cases cd <;> by_cases h : ck = k <;>
    simp [requestSort, toggleDirection, h]

/-- C9 witness: re-selecting the active ascending column yields
descending. -/
theorem c9_witness :
    requestSort ColKey.humanUser ⟨ColKey.humanUser, Direction.ascending⟩
      = ⟨ColKey.humanUser, Direction.descending⟩ :=
  (c9_requestSort_toggle_and_reset ⟨ColKey.humanUser, Direction.ascending⟩ ColKey.humanUser).1 rfl

/-- C8: a candidate record with an empty `humanUser`, or whose
`mfaEnabled` does not case-insensitively match "yes" or "no", is rejected
with the client error naming that constraint, before any store access:
the store is never touched, the snapshot is returned unchanged, and a
subsequent read therefore computes from exactly the records that existed
before. -/
theorem c8_addUser_validation (input : InputUser) (users : List User)
    (insertOk : Bool) (postStore : StoreRead) :
    (input.humanUser = "" →
      addUser input users insertOk postStore = (.badRequestEmptyHumanUser, users)) ∧
    (input.humanUser ≠ "" →
      mfaLower input.mfaEnabled ≠ "yes".toList →
      mfaLower input.mfaEnabled ≠ "no".toList →
      addUser input users insertOk postStore = (.badRequestInvalidMFA, users)) ∧
    (∀ now,
      input.humanUser = "" ∨
        (mfaLower input.mfaEnabled ≠ "yes".toList ∧
         mfaLower input.mfaEnabled ≠ "no".toList) →
      getUsers now (addUser input users insertOk postStore).2 = getUsers now users) := by
  have hmfa : ∀ hy : mfaLower input.mfaEnabled ≠ "yes".toList,
      ∀ hn : mfaLower input.mfaEnabled ≠ "no".toList,
      parseMFA input.mfaEnabled = none := by
    intro hy hn
    simp only [parseMFA]
    rw [if_neg hy, if_neg hn]
  refine ⟨fun h => by simp [addUser, h], fun h hy hn => ?_, fun now h => ?_⟩
  · simp [addUser, h, hmfa hy hn]
  · rcases h with h | ⟨hy, hn⟩
    · simp [addUser, h]
    · by_cases h0 : input.humanUser = ""
      · simp [addUser, h0]
      · simp [addUser, h0, hmfa hy hn]

/-- C8 witness: inserting a record with empty `humanUser` is rejected and
leaves the snapshot unchanged. -/
theorem c8_witness :
    addUser ⟨"", "May 18 2025", "May 18 2025", "May 18 2025", "Yes"⟩ [uAlice] true StoreRead.queryErr
      = (AddResult.badRequestEmptyHumanUser, [uAlice]) :=
  (c8_addUser_validation ⟨"", "May 18 2025", "May 18 2025", "May 18 2025", "Yes"⟩
    [uAlice] true StoreRead.queryErr).1 rfl

/-- C10: loading a row whose `mfa_enabled` column is NULL surfaces
`mfaEnabled = "No"`, the same external value as an explicit false, and
every record of a snapshot published by `loadUsers` has `mfaEnabled`
equal to exactly "Yes" or "No". -/
theorem c10_mfa_normalized (r : DBRow) (store : StoreRead) (us : List User) :
    (r.mfa_enabled = none →
      (decodeRow r).mfaEnabled = "No" ∧
      (decodeRow r).mfaEnabled = (decodeRow { r with mfa_enabled := some false }).mfaEnabled) ∧
    (loadUsers store = .published us →
      ∀ u ∈ us, u.mfaEnabled = "Yes" ∨ u.mfaEnabled = "No") := by
  constructor
  · intro h
    simp [decodeRow, h]
  · intro h u hu
    cases store with
    | queryErr => simp [loadUsers] at h
    | rows rs iterErr =>
      cases iterErr with
      | true => simp [loadUsers] at h
      | false =>
        simp [loadUsers] at h
        subst h
        obtain ⟨sr, _, hsr⟩ := List.mem_filterMap.mp hu
        cases sr with
        | scanErr => simp at hsr
        | ok r =>
          simp only [Option.some.injEq] at hsr
          subst hsr
          cases hm : r.mfa_enabled with
          | none => right; simp [decodeRow, hm]
          | some b => cases b with
            | true => left; simp [decodeRow, hm]
            | false => right; simp [decodeRow, hm]

/-- C10 witness: the NULL-MFA row decodes to "No", matching an explicit
false. -/
theorem c10_witness :
    (decodeRow rowNullFields).mfaEnabled = "No" ∧
    (decodeRow rowNullFields).mfaEnabled
      = (decodeRow { rowNullFields with mfa_enabled := some false }).mfaEnabled :=
  (c10_mfa_normalized rowNullFields (.rows [] false) []).1 rfl

/-- C6: the search step with an empty query returns the full input list
unchanged in order; with a non-empty query a record is kept if and only
if it was in the input and at least one column flagged searchable in
`columnsConfig` has a stringified value containing the query as a
case-insensitive substring. -/
theorem c6_search_characterization (q : String) (us : List User) :
    (q = "" → searchFilter q us = us) ∧
    (q ≠ "" → ∀ u, u ∈ searchFilter q us ↔ u ∈ us ∧
      ∃ c ∈ columnsConfig, c.searchable = true ∧
        strIncludes ⟨lowerList (getFieldString u c.key).toList⟩ ⟨lowerList q.toList⟩ = true) := by
  constructor
  · intro h
    simp [searchFilter, h]
  · intro h u
    rw [searchFilter, if_neg h, List.mem_filter]
    simp only [List.any_eq_true, Bool.and_eq_true]

/-- C6 witness: the query "ali" keeps the record whose user name
contains "Ali" and the empty query keeps the non-matching record. -/
theorem c6_witness :
    uAlice ∈ searchFilter "ali" [uAlice, uBad] ∧
    searchFilter "" [uBad] = [uBad] := by
  constructor
  · exact ((c6_search_characterization "ali" [uAlice, uBad]).2 (by decide) uAlice).mpr
      ⟨by decide, ⟨.humanUser, .str, true⟩, by decide, rfl, by decide⟩
  · exact (c6_search_characterization "" [uBad]).1 rfl

/-- The empty string does not parse as a date. -/
theorem parseDateMs_empty : parseDateMs "" = none := rfl

/-- The empty string does not parse as a date (seconds view). -/
theorem parseDateSec_empty : parseDateSec "" = none := rfl

/-- The date-range keep predicate holds exactly of records whose selected
field parses and whose instant lies within the normalized inclusive
bounds. -/
theorem dateRangeKeep_iff (col : ColKey) (sd ed : Option Int) (u : User) :
    dateRangeKeep col sd ed u = true ↔
      ∃ t, parseDateMs (getFieldString u col) = some t ∧
        (∀ s, sd = some s → s * 86400000 ≤ t) ∧
        (∀ e, ed = some e → t ≤ e * 86400000 + 86399999) := by
  by_cases hv : getFieldString u col = ""
  · simp [dateRangeKeep, hv, parseDateMs_empty]
  · cases hp : parseDateMs (getFieldString u col) with
    | none => simp [dateRangeKeep, hv, hp]
    | some t => cases sd <;> cases ed <;> simp [dateRangeKeep, hv, hp]

/-- C7: with neither bound set the date-range step excludes nothing; with
a bound set a record is kept exactly when it was in the input and its
selected field parses to an instant between the start bound normalized to
00:00:00 and the end bound normalized to 23:59:59.999 of their calendar
days (inclusive on both ends); hence any kept record has a non-empty,
parseable field, a record dated exactly on the start boundary is kept
(when no end bound interferes), and a record dated one day before the
start boundary is excluded. -/
theorem c7_date_range_filter (col : ColKey) (sd ed : Option Int) (us : List User) :
    (sd = none → ed = none → dateRangeFilter col sd ed us = us) ∧
    (¬(sd = none ∧ ed = none) → ∀ u,
      u ∈ dateRangeFilter col sd ed us ↔ u ∈ us ∧
        ∃ t, parseDateMs (getFieldString u col) = some t ∧
          (∀ s, sd = some s → s * 86400000 ≤ t) ∧
          (∀ e, ed = some e → t ≤ e * 86400000 + 86399999)) ∧
    (¬(sd = none ∧ ed = none) → ∀ u ∈ dateRangeFilter col sd ed us,
      getFieldString u col ≠ "" ∧ (parseDateMs (getFieldString u col)).isSome = true) ∧
    (∀ s u, sd = some s → ed = none → u ∈ us →
      parseDateMs (getFieldString u col) = some (s * 86400000) →
      u ∈ dateRangeFilter col sd ed us) ∧
    (∀ s u, sd = some s →
      parseDateMs (getFieldString u col) = some ((s - 1) * 86400000) →
      u ∉ dateRangeFilter col sd ed us) := by
  have hmem : ¬(sd = none ∧ ed = none) → ∀ u,
      u ∈ dateRangeFilter col sd ed us ↔ u ∈ us ∧
        ∃ t, parseDateMs (getFieldString u col) = some t ∧
          (∀ s, sd = some s → s * 86400000 ≤ t) ∧
          (∀ e, ed = some e → t ≤ e * 86400000 + 86399999) := by
    intro h u
    rw [dateRangeFilter, if_neg h, List.mem_filter, dateRangeKeep_iff]
  refine ⟨fun h1 h2 => by simp [dateRangeFilter, h1, h2], hmem, ?_, ?_, ?_⟩
  · intro h u hu
    obtain ⟨-, t, hpt, -, -⟩ := (hmem h u).mp hu
    constructor
    · intro hv
      rw [hv, parseDateMs_empty] at hpt
      exact Option.noConfusion hpt
    · rw [hpt]
      rfl
  · intro s u hs he hu hp
    refine (hmem (by simp [hs]) u).mpr ⟨hu, s * 86400000, hp, ?_, ?_⟩
    · intro s' hs'
      rw [hs] at hs'
      cases hs'
      exact le_refl _
    · intro e he'
      rw [he] at he'
      exact Option.noConfusion he'
  · intro s u hs hp hu
    obtain ⟨-, t, hpt, hstart, -⟩ := (hmem (by simp [hs]) u).mp hu
    rw [hp] at hpt
    cases hpt
    have := hstart s hs
    omega

/-- C7 witness: a record dated exactly on the start boundary (Jan 1 2023,
day 19358) is included, and is excluded once the start bound moves one
day later. -/
theorem c7_witness :
    uAlice ∈ dateRangeFilter ColKey.createDate (some 19358) none [uAlice] ∧
    uAlice ∉ dateRangeFilter ColKey.createDate (some 19359) none [uAlice] := by
  constructor
  · exact (c7_date_range_filter ColKey.createDate (some 19358) none [uAlice]).2.2.2.1
      19358 uAlice rfl rfl (by decide) (by decide)
  · exact (c7_date_range_filter ColKey.createDate (some 19359) none [uAlice]).2.2.2.2
      19359 uAlice rfl (by decide)

/-- Membership in a stable insertion. -/
theorem mem_insertSorted {cmp : α → α → Int} {x a : α} {l : List α} :
    a ∈ insertSorted cmp x l ↔ a = x ∨ a ∈ l := by
  induction l with
  | nil => simp [insertSorted]
  | cons y ys ih =>
    unfold insertSorted
    by_cases h : cmp x y ≤ 0
    · simp [h]
    · simp only [h, if_false, List.mem_cons, ih]
      tauto

/-- Inserting an element that compares at most 0 against everything in
`l₂` never enters `l₂`. -/
theorem insertSorted_append_left (cmp : α → α → Int) (x : α) (l₂ : List α)
    (H : ∀ b ∈ l₂, cmp x b ≤ 0) :
    ∀ l₁ : List α, insertSorted cmp x (l₁ ++ l₂) = insertSorted cmp x l₁ ++ l₂ := by
  intro l₁
  induction l₁ with
  | nil =>
    cases l₂ with
    | nil => rfl
    | cons b bs =>
      simp only [List.nil_append, insertSorted]
      rw [if_pos (H b (List.mem_cons_self b bs))]
      rfl
  | cons a as ih =>
    simp only [List.cons_append, insertSorted, List.append_eq]
    by_cases h : cmp x a ≤ 0
    · rw [if_pos h, if_pos h]
      rfl
    · rw [if_neg h, if_neg h, ih]
      rfl

/-- Inserting an element that compares greater than everything in `l₁`
passes over all of `l₁`. -/
theorem insertSorted_append_right (cmp : α → α → Int) (x : α) (l₂ : List α) :
    ∀ l₁ : List α, (∀ b ∈ l₁, ¬cmp x b ≤ 0) →
      insertSorted cmp x (l₁ ++ l₂) = l₁ ++ insertSorted cmp x l₂ := by
  intro l₁
  induction l₁ with
  | nil => intro _; rfl
  | cons a as ih =>
    intro H
    simp only [List.cons_append, insertSorted, List.append_eq]
    rw [if_neg (H a (List.mem_cons_self a as)),
        ih fun b hb => H b (List.mem_cons_of_mem a hb)]

/-- A comparator that always ranks `bad` elements after the others makes
the stable sort produce a clean split: all non-bad elements first, then
all bad elements. -/
theorem sortByComparator_split (cmp : α → α → Int) (bad : α → Bool)
    (Hgb : ∀ a b, bad a = false → bad b = true → cmp a b ≤ 0)
    (Hbg : ∀ a b, bad a = true → bad b = false → ¬cmp a b ≤ 0) :
    ∀ us : List α, ∃ g bl, sortByComparator cmp us = g ++ bl ∧
      (∀ u ∈ g, bad u = false) ∧ (∀ u ∈ bl, bad u = true) := by
  intro us
  induction us with
  | nil => exact ⟨[], [], rfl, by simp, by simp⟩
  | cons x xs ih =>
    obtain ⟨g, bl, heq, hg, hb⟩ := ih
    by_cases hx : bad x = true
    · refine ⟨g, insertSorted cmp x bl, ?_, hg, ?_⟩
      · show insertSorted cmp x (sortByComparator cmp xs) = _
        rw [heq, insertSorted_append_right cmp x bl g fun b hb' => Hbg x b hx (hg b hb')]
      · intro u hu
        rcases mem_insertSorted.mp hu with h | h
        · exact h ▸ hx
        · exact hb u h
    · have hx' : bad x = false := by simpa using hx
      refine ⟨insertSorted cmp x g, bl, ?_, ?_, hb⟩
      · show insertSorted cmp x (sortByComparator cmp xs) = _
        rw [heq, insertSorted_append_left cmp x bl (fun b hb' => Hgb x b hx' (hb b hb')) g]
      · intro u hu
        rcases mem_insertSorted.mp hu with h | h
        · exact h ▸ hx'
        · exact hg u h

/-- C1 counterexample: sorting by the date-typed `createDate` column in
descending direction places the record with the unparseable date BEFORE
the record with the parseable date, because the direction negation is
applied to the comparison after the invalid-side rule; this refutes the
claim that the unparseable record sorts after the parseable one in both
directions. -/
theorem c1_counterexample :
    parseDateMs (getFieldString uBad ColKey.createDate) = none ∧
    (parseDateMs (getFieldString uAlice ColKey.createDate)).isSome = true ∧
    sortStep ColKey.createDate Direction.descending [uAlice, uBad] = [uBad, uAlice] := by
  refine ⟨by decide, by decide, by decide⟩

/-- C1 amended: for a date-typed sort column, the ascending output places
every parseable-dated record before every unparseable-dated record, the
descending output places every unparseable-dated record before every
parseable-dated record (the direction negation also flips the
invalid-last rule), and two records that both fail to parse compare as
equal in either direction. -/
theorem c1_sort_unparseable_placement (k : ColKey) (c : ColumnConfig)
    (hk : findColumn k = some c) (ht : c.type = ColType.date) (us : List User) :
    (∃ g bl, sortStep k Direction.ascending us = g ++ bl ∧
      (∀ u ∈ g, (parseDateMs (getFieldString u k)).isSome = true) ∧
      (∀ u ∈ bl, parseDateMs (getFieldString u k) = none)) ∧
    (∃ bl g, sortStep k Direction.descending us = bl ++ g ∧
      (∀ u ∈ bl, parseDateMs (getFieldString u k) = none) ∧
      (∀ u ∈ g, (parseDateMs (getFieldString u k)).isSome = true)) ∧
    (∀ a b dir, parseDateMs (getFieldString a k) = none →
      parseDateMs (getFieldString b k) = none → sortComparator k dir a b = 0) := by
  have hnone : ∀ u : User, (parseDateMs (getFieldString u k)).isNone = true ↔
      parseDateMs (getFieldString u k) = none := by
    intro u
    cases hp : parseDateMs (getFieldString u k) <;> simp [hp]
  have hsome : ∀ u : User, (parseDateMs (getFieldString u k)).isNone = false ↔
      (parseDateMs (getFieldString u k)).isSome = true := by
    intro u
    cases hp : parseDateMs (getFieldString u k) <;> simp [hp]
  have hcmp : ∀ (a b : User) (x : Int),
      parseDateMs (getFieldString a k) = some x →
      parseDateMs (getFieldString b k) = none →
      rawComparison k a b = -1 := by
    intro a b x hx hbn
    simp [rawComparison, hk, ht, hx, hbn]
  have hcmp2 : ∀ (a b : User) (x : Int),
      parseDateMs (getFieldString a k) = none →
      parseDateMs (getFieldString b k) = some x →
      rawComparison k a b = 1 := by
    intro a b x han hx
    simp [rawComparison, hk, ht, han, hx]
  refine ⟨?_, ?_, ?_⟩
  · have hgb : ∀ a b : User, (parseDateMs (getFieldString a k)).isNone = false →
        (parseDateMs (getFieldString b k)).isNone = true →
        sortComparator k Direction.ascending a b ≤ 0 := by
      intro a b ha hb
      obtain ⟨x, hx⟩ := Option.isSome_iff_exists.mp ((hsome a).mp ha)
      simp [sortComparator, applyDirection, hcmp a b x hx ((hnone b).mp hb)]
    have hbg : ∀ a b : User, (parseDateMs (getFieldString a k)).isNone = true →
        (parseDateMs (getFieldString b k)).isNone = false →
        ¬sortComparator k Direction.ascending a b ≤ 0 := by
      intro a b ha hb
      obtain ⟨x, hx⟩ := Option.isSome_iff_exists.mp ((hsome b).mp hb)
      simp [sortComparator, applyDirection, hcmp2 a b x ((hnone a).mp ha) hx]
    obtain ⟨g, bl, heq, hg, hb⟩ :=
      sortByComparator_split (sortComparator k Direction.ascending)
        (fun u => (parseDateMs (getFieldString u k)).isNone) hgb hbg us
    exact ⟨g, bl, heq, fun u hu => (hsome u).mp (hg u hu),
      fun u hu => (hnone u).mp (hb u hu)⟩
  · have hgb : ∀ a b : User, (parseDateMs (getFieldString a k)).isSome = false →
        (parseDateMs (getFieldString b k)).isSome = true →
        sortComparator k Direction.descending a b ≤ 0 := by
      intro a b ha hb
      obtain ⟨x, hx⟩ := Option.isSome_iff_exists.mp hb
      have han : parseDateMs (getFieldString a k) = none := by
        cases hp : parseDateMs (getFieldString a k) <;> simp [hp] at ha ⊢
      simp [sortComparator, applyDirection, hcmp2 a b x han hx]
    have hbg : ∀ a b : User, (parseDateMs (getFieldString a k)).isSome = true →
        (parseDateMs (getFieldString b k)).isSome = false →
        ¬sortComparator k Direction.descending a b ≤ 0 := by
      intro a b ha hb
      obtain ⟨x, hx⟩ := Option.isSome_iff_exists.mp ha
      have hbn : parseDateMs (getFieldString b k) = none := by
        cases hp : parseDateMs (getFieldString b k) <;> simp [hp] at hb ⊢
      simp [sortComparator, applyDirection, hcmp a b x hx hbn]
    obtain ⟨g, bl, heq, hg, hb⟩ :=
      sortByComparator_split (sortComparator k Direction.descending)
        (fun u => (parseDateMs (getFieldString u k)).isSome) hgb hbg us
    refine ⟨g, bl, heq, ?_, fun u hu => hb u hu⟩
    intro u hu
    have := hg u hu
    cases hp : parseDateMs (getFieldString u k) <;> simp [hp] at this ⊢
  · intro a b dir ha hb
    cases dir <;> simp [sortComparator, rawComparison, hk, ht, ha, hb, applyDirection]

/-- C1 witness: two unparseable-dated records compare as equal under the
date comparator. -/
theorem c1_witness :
    sortComparator ColKey.createDate Direction.descending uBad uBad = 0 :=
  (c1_sort_unparseable_placement ColKey.createDate ⟨ColKey.createDate, ColType.date, false⟩
    (by decide) rfl [uAlice, uBad]).2.2 uBad uBad Direction.descending (by decide) (by decide)

/-- C2 counterexample: after a successful mutation (valid input, INSERT
succeeded), a refresh whose store query fails ends in `fatalExit` — the
process is terminated by `log.Fatalf`, so it does not continue and no
error response reaches the mutation's caller; and a refresh in which one
row fails to decode silently drops that row, publishing a truncated
snapshot while the mutation reports success. -/
theorem c2_counterexample :
    addUser inputOk [uAlice, uBad] true StoreRead.queryErr
      = (AddResult.fatalExit, [uAlice, uBad]) ∧
    loadUsers (StoreRead.rows [ScanRow.ok rowFull, ScanRow.scanErr] false)
      = LoadOutcome.published [decodeRow rowFull] ∧
    addUser inputOk [uAlice, uBad] true (StoreRead.rows [ScanRow.ok rowFull, ScanRow.scanErr] false)
      = (AddResult.created, [decodeRow rowFull]) := by
  refine ⟨by decide, by decide, by decide⟩

/-- C2 amended: after a successful mutation, a refresh whose store query
fails, or whose row iteration reports an error, terminates the process
(`log.Fatalf`): the failure is fatal and is not surfaced as an error
response to the mutation's caller; a row that fails to scan during an
otherwise successful refresh is silently skipped, so the published
snapshot can omit records; only the fully successful path publishes the
decoded row list, by a single final assignment. -/
theorem c2_refresh_failure_fatal (input : InputUser) (users : List User) (b : Bool)
    (hhu : input.humanUser ≠ "") (hm : parseMFA input.mfaEnabled = some b) :
    (addUser input users true StoreRead.queryErr = (AddResult.fatalExit, users)) ∧
    (∀ rs, addUser input users true (StoreRead.rows rs true) = (AddResult.fatalExit, users)) ∧
    (∀ rs, addUser input users true (StoreRead.rows rs false) =
      (AddResult.created, rs.filterMap fun sr =>
        match sr with
        | ScanRow.ok r => some (decodeRow r)
        | ScanRow.scanErr => none)) := by
  refine ⟨?_, ?_, ?_⟩ <;> simp [addUser, hhu, hm, loadUsers]

/-- C2 witness: the concrete valid input with an unreachable store at
refresh time ends in process termination with no response. -/
theorem c2_witness :
    addUser inputOk [uAlice] true StoreRead.queryErr = (AddResult.fatalExit, [uAlice]) :=
  (c2_refresh_failure_fatal inputOk [uAlice] true (by decide) (by decide)).1

/-- C3 counterexample: for a date one day after `now` (noon of
Jan 2 2023 against the date Jan 3 2023), the code computes
`int(duration.Hours()/24) = 0` (truncation toward zero) while
floor((now - parsedDate) in days) is -1, refuting the claim that the
derived value is the floor. -/
theorem c3_counterexample :
    parseDateSec "Jan 3 2023" = some (19360 * 86400) ∧
    deriveDays (19359 * 86400 + 43200) "Jan 3 2023" = 0 ∧
    Int.fdiv ((19359 * 86400 + 43200) - 19360 * 86400) 86400 = -1 ∧
    (0 : Int) ≠ -1 := by
  refine ⟨by decide, by decide, by decide, by decide⟩

/-- C3 amended: per read and per field, an empty date yields -1; a
non-empty date that does not parse in the canonical "Mon D YYYY" format
yields -1 while the read processes every record (never aborts); a date
that parses yields the day difference (now - parsedDate) truncated toward
zero — equal to the floor whenever the date is not after `now`, and
negative (not clamped) whenever the date is at least one full day after
`now`. -/
theorem c3_derive_truncated_days (now : Int) (ds : String) (us : List User) :
    (ds = "" → deriveDays now ds = -1) ∧
    (parseDateSec ds = none → deriveDays now ds = -1) ∧
    (∀ d, parseDateSec ds = some d →
      deriveDays now ds = Int.tdiv (now - d) 86400 ∧
      (d ≤ now → deriveDays now ds = Int.fdiv (now - d) 86400) ∧
      (d - now ≥ 86400 → deriveDays now ds < 0)) ∧
    ((getUsers now us).length = us.length ∧
      ∀ u ∈ us, deriveUser now u ∈ getUsers now us) := by
  refine ⟨fun h => by simp [deriveDays, h], fun h => ?_, fun d hd => ?_, ?_, ?_⟩
  · by_cases hds : ds = ""
    · simp [deriveDays, hds]
    · simp [deriveDays, hds, h]
  · have hne : ds ≠ "" := by
      intro h
      rw [h, parseDateSec_empty] at hd
      exact Option.noConfusion hd
    have hval : deriveDays now ds = Int.tdiv (now - d) 86400 := by
      simp [deriveDays, hne, hd]
    refine ⟨hval, fun hle => ?_, fun hfut => ?_⟩
    · rw [hval, Int.fdiv_eq_tdiv (by omega) (by norm_num)]
    · rw [hval]
      have hrw : now - d = -(d - now) := by ring
      rw [hrw, Int.neg_tdiv, Int.tdiv_eq_ediv (by omega) (by norm_num)]
      omega
  · simp [getUsers]
  · intro u hu
    exact List.mem_map_of_mem (deriveUser now) hu

/-- C3 witness: a date exactly 10 days before (midnight) `now` yields 10;
the empty date yields -1. -/
theorem c3_witness :
    deriveDays (19368 * 86400) "Jan 1 2023" = 10 ∧
    deriveDays (19368 * 86400) "" = -1 := by
  constructor
  · exact (((c3_derive_truncated_days (19368 * 86400) "Jan 1 2023" []).2.2.1
      (19358 * 86400) (by decide)).1).trans (by decide)
  · exact (c3_derive_truncated_days (19368 * 86400) "" []).1 rfl

/-- C4 counterexample: a record loaded from a row whose `create_date`
column is NULL has `createDate = ""`, and because the Go struct tags that
field `omitempty`, the encoded object of the Read response omits the
`createDate` key entirely, refuting the claim that every object contains
all stored fields regardless of empty values. -/
theorem c4_counterexample :
    loadUsers (StoreRead.rows [ScanRow.ok rowNullFields] false)
      = LoadOutcome.published [decodeRow rowNullFields] ∧
    getUsersResponseFields 1000000000 [decodeRow rowNullFields]
      = [encodedFieldNames (deriveUser 1000000000 (decodeRow rowNullFields))] ∧
    "createDate" ∉ encodedFieldNames (deriveUser 1000000000 (decodeRow rowNullFields)) := by
  refine ⟨by decide, by decide, by decide⟩

/-- C4 amended: the Read response is an array with exactly one object per
record; every object contains `humanUser` and `mfaEnabled`
unconditionally, while each of `createDate`, `passwordChangedDate` and
`lastAccessDate` is present exactly when non-empty and each derived field
`daysSinceLastPasswordChange`, `daysSinceLastAccess` exactly when
non-zero (Go `omitempty` drops zero values). -/
theorem c4_encoded_fields (now : Int) (us : List User) :
    (getUsersResponseFields now us).length = us.length ∧
    ∀ u : User,
      ("humanUser" ∈ encodedFieldNames u ∧ "mfaEnabled" ∈ encodedFieldNames u) ∧
      ("createDate" ∈ encodedFieldNames u ↔ u.createDate ≠ "") ∧
      ("passwordChangedDate" ∈ encodedFieldNames u ↔ u.passwordChangedDate ≠ "") ∧
      ("daysSinceLastPasswordChange" ∈ encodedFieldNames u ↔
        u.daysSinceLastPasswordChange ≠ 0) ∧
      ("lastAccessDate" ∈ encodedFieldNames u ↔ u.lastAccessDate ≠ "") ∧
      ("daysSinceLastAccess" ∈ encodedFieldNames u ↔ u.daysSinceLastAccess ≠ 0) := by
  constructor
  · simp [getUsersResponseFields, getUsers]
  · intro u
    by_cases h1 : u.createDate = "" <;>
      by_cases h2 : u.passwordChangedDate = "" <;>
      by_cases h3 : u.daysSinceLastPasswordChange = 0 <;>
      by_cases h4 : u.lastAccessDate = "" <;>
      by_cases h5 : u.daysSinceLastAccess = 0 <;>
      simp [encodedFieldNames, h1, h2, h3, h4, h5]

/-- C4 witness: the response for one fully populated record is one
object. -/
theorem c4_witness :
    (getUsersResponseFields 0 [uAlice]).length = [uAlice].length :=
  (c4_encoded_fields 0 [uAlice]).1

end Strato
